import Mathlib

/-!
Verification development for the open-claude tool-server orchestration layer:
the argument sanitizer, the MCP tool-selection registry, and the streaming
response assembler. JavaScript strings are modelled as `List Char`; JavaScript
`Map` objects are modelled as association lists in insertion order.
-/

namespace OpenClaude

/-! ### Argument sanitizer (src/main.ts sanitizeArg, src/mcp/client.ts sanitizeArgs) -/

/-- The double-quote character tested by the sanitizer. -/
def dqc : Char := '"'

/-- The single-quote character tested by the sanitizer (written via its code
point to keep the file free of stray quote characters). -/
def sqc : Char := Char.ofNat 39

/-- JavaScript `s.startsWith(c)` for a one-character pattern `c`, the only form
the sanitizer uses: true iff the first character of `s` equals `c`. -/
def jsStartsWith (s : List Char) (c : Char) : Bool :=
  match s with
  | [] => false
  | a :: _ => a == c

/-- JavaScript `s.endsWith(c)` for a one-character pattern `c`: true iff the
last character of `s` equals `c`. -/
def jsEndsWith (s : List Char) (c : Char) : Bool :=
  match s.getLast? with
  | some a => a == c
  | none => false

/-- JavaScript `s.slice(1, -1)`: drop the first and the last character. On a
one-character string this yields the empty string, as in JavaScript. -/
def jsSliceOneOff (s : List Char) : List Char :=
  (s.drop 1).dropLast

/-- A JavaScript value passed as a command argument. The sanitizer is typed
`string` but is called defensively, so the model keeps the runtime tags that
`typeof` distinguishes from a string. -/
inductive JSArg where
  | str (s : List Char)
  | num (n : Int)
  | boolean (b : Bool)
  | nullV
  | undefinedV
deriving DecidableEq, Repr

/-- Whether `typeof arg === "string"` holds. -/
def JSArg.isString : JSArg → Bool
  | .str _ => true
  | _ => false

/-- The string path of `sanitizeArg` from src/main.ts: if the argument starts
and ends with a double quote, or starts and ends with a single quote, return
`arg.slice(1, -1)`; otherwise return the argument unchanged. -/
def sanitizeArgStr (s : List Char) : List Char :=
  if (jsStartsWith s dqc && jsEndsWith s dqc)
      || (jsStartsWith s sqc && jsEndsWith s sqc) then
    jsSliceOneOff s
  else
    s

/-- `sanitizeArg` from src/main.ts: a non-string argument (detected via
`typeof`) is mapped to the empty string; a string argument goes through the
quote-stripping path. -/
def sanitizeArg : JSArg → List Char
  | .str s => sanitizeArgStr s
  | _ => []

/-- `sanitizeArgs` from src/mcp/client.ts: `args.map` of the quote-stripping
body, which calls `.startsWith` directly with no `typeof` guard. Invoking
`.startsWith` on a non-string raises a TypeError at runtime, modelled here as
`none`; `some` carries the sanitized list when every element is a string. -/
def sanitizeArgs : List JSArg → Option (List (List Char))
  | [] => some []
  | a :: rest =>
    match a with
    | .str s =>
      match sanitizeArgs rest with
      | some out => some (sanitizeArgStr s :: out)
      | none => none
    | _ => none

/-- The specification predicate: `s` is fully wrapped in a matching pair of
the quote character `c`, that is, it has an opening and a distinct closing
occurrence of `c` (so its length is at least two) at its two ends. -/
def specFullyWrapped (c : Char) (s : List Char) : Prop :=
  2 ≤ s.length ∧ jsStartsWith s c = true ∧ jsEndsWith s c = true

instance (c : Char) (s : List Char) : Decidable (specFullyWrapped c s) := by
  unfold specFullyWrapped
  infer_instance

/-! ### Tool selection registry (src/renderer/main.ts) -/

/-- One entry of `mcpServerStatus` from src/renderer/main.ts: the renderer's
view of a connected MCP server. Only the fields read by the selection and
badge logic are modelled; a tool is represented by its name. -/
structure MCPServerStatus where
  id : String
  isConnected : Bool
  tools : List String
deriving DecidableEq, Repr

/-- The renderer's MCP selection state from src/renderer/main.ts lines
231-238: the discovery list `mcpServerStatus`, the individually selected
tools `selectedMCPTools` (stored in the code as a Set of serverId:toolName
key strings and destructured with split at use sites; modelled as ordered
pairs, which is faithful whenever ids contain no colon), and the
whole-selected server ids `selectedMCPServers` (a Set of ids only). The two
JavaScript Sets are modelled as duplicate-free insertion-ordered lists. -/
structure RendererMCPState where
  mcpServerStatus : List MCPServerStatus
  selectedMCPTools : List (String × String)
  selectedMCPServers : List String
deriving DecidableEq, Repr

/-- JavaScript `mcpServerStatus.find(s => s.id === serverId)`. -/
def findServer (st : RendererMCPState) (serverId : String) :
    Option MCPServerStatus :=
  st.mcpServerStatus.find? (fun s => s.id == serverId)

/-- The capability names currently live for a server, as the renderer state
exposes them: the tools of the first matching `mcpServerStatus` entry when it
is connected, and the empty list otherwise. -/
def liveTools (st : RendererMCPState) (serverId : String) : List String :=
  match findServer st serverId with
  | some server => if server.isConnected then server.tools else []
  | none => []

/-- `getSelectedMCPTools` from src/renderer/main.ts lines 2255 area (quoted
at src/unnamed/part_000 lines 241-254): first, for each whole-selected
server id, the tools of the matching connected `mcpServerStatus` entry are
pushed (the elided find-server-add-all-tools branch, reconstructed from the
fully visible parallel loop of `updateToolsBadge`); then every individually
selected key whose server is not whole-selected is pushed, with no check
against the live tool list. -/
def getSelectedMCPTools (st : RendererMCPState) : List (String × String) :=
  (st.selectedMCPServers.flatMap (fun serverId =>
    (liveTools st serverId).map (fun t => (serverId, t)))) ++
  (st.selectedMCPTools.filter
    (fun k => !(st.selectedMCPServers.contains k.1)))

/-- The per-server summand of the first loop of `updateToolsBadge`:
`server.tools.length` when `mcpServerStatus.find` locates the server and it
is connected, zero otherwise. -/
def badgeServerCount (st : RendererMCPState) (serverId : String) : Nat :=
  match findServer st serverId with
  | some server => if server.isConnected then server.tools.length else 0
  | none => 0

/-- The count computed by `updateToolsBadge` from src/renderer/main.ts lines
2064-2093 (quoted in full at src/unnamed/part_000 lines 150-178): tools of
connected whole-selected servers are counted via `server.tools.length`, then
each individually selected key whose server is not whole-selected adds one.
Only the count is modelled; writing it into the badge DOM node is rendering
glue outside this development. -/
def updateToolsBadgeCount (st : RendererMCPState) : Nat :=
  (st.selectedMCPServers.map (badgeServerCount st)).sum
  + (st.selectedMCPTools.filter
      (fun k => !(st.selectedMCPServers.contains k.1))).length

/-- Modelled from the spec: `selectServer` adds the server id to the
`selectedMCPServers` Set (JavaScript Set add: append when absent). The
mutation handlers of src/renderer/main.ts lines 2255-2275 are not in the
sources; the declared data structure stores only the id, which this
operation records. -/
def selectServer (st : RendererMCPState) (serverId : String) :
    RendererMCPState :=
  { st with selectedMCPServers :=
      if st.selectedMCPServers.contains serverId then st.selectedMCPServers
      else st.selectedMCPServers ++ [serverId] }

/-- Modelled from the spec: `selectCapability` adds the serverId-toolName key
to the `selectedMCPTools` Set (JavaScript Set add: append when absent). The
mutation handlers of src/renderer/main.ts lines 2255-2275 are not in the
sources; the declared data structure stores the key strings. -/
def selectCapability (st : RendererMCPState) (serverId name : String) :
    RendererMCPState :=
  { st with selectedMCPTools :=
      if st.selectedMCPTools.contains (serverId, name) then st.selectedMCPTools
      else st.selectedMCPTools ++ [(serverId, name)] }

/-- Rediscovery: the Connection Manager replaces a server's capability list
wholesale, reflected into every matching `mcpServerStatus` entry. -/
def setServerTools (st : RendererMCPState) (serverId : String)
    (tools : List String) : RendererMCPState :=
  { st with mcpServerStatus :=
      st.mcpServerStatus.map (fun s =>
        if s.id == serverId then { s with tools := tools } else s) }

/-! ### Streaming response assembler (src/renderer/main.ts) -/

/-- The four block kinds of the streaming event contract. The code partitions
blocks into three Maps, so invocation and result blocks share `toolBlocks`;
`reasoning` blocks live in `thinkingBlocks`. -/
inductive BlockKind where
  | reasoning
  | tool_invocation
  | tool_result
  | text
deriving DecidableEq, Repr

/-- One streaming block under construction: accumulated content and the
closed flag. -/
structure StreamingBlock where
  content : List Char
  closed : Bool
deriving DecidableEq, Repr

/-- The `streamingBlocks` state object from src/renderer/main.ts lines
255-267 (quoted at src/unnamed/part_000 lines 58-63): three kind-partitioned
Maps keyed by the producer-assigned block index, plus the single running text
buffer `textContent`. Maps are modelled as insertion-ordered association
lists. -/
structure StreamingBlocks where
  thinkingBlocks : List (Nat × StreamingBlock)
  toolBlocks : List (Nat × StreamingBlock)
  textBlocks : List (Nat × StreamingBlock)
  textContent : List Char
deriving DecidableEq, Repr

/-- JavaScript `map.get(i)` on the association-list model. -/
def alGet (m : List (Nat × StreamingBlock)) (i : Nat) : Option StreamingBlock :=
  match m with
  | [] => none
  | (j, b) :: rest => if j == i then some b else alGet rest i

/-- JavaScript `map.set(i, b)` on the association-list model: replace in
place when the key is present, append otherwise. -/
def alSet (m : List (Nat × StreamingBlock)) (i : Nat) (b : StreamingBlock) :
    List (Nat × StreamingBlock) :=
  match m with
  | [] => [(i, b)]
  | (j, c) :: rest =>
    if j == i then (i, b) :: rest else (j, c) :: alSet rest i b

/-- The Map holding blocks of a given kind. -/
def mapOf (st : StreamingBlocks) : BlockKind → List (Nat × StreamingBlock)
  | .reasoning => st.thinkingBlocks
  | .tool_invocation => st.toolBlocks
  | .tool_result => st.toolBlocks
  | .text => st.textBlocks

/-- Replace the Map holding blocks of a given kind. -/
def setMap (st : StreamingBlocks) (k : BlockKind)
    (m : List (Nat × StreamingBlock)) : StreamingBlocks :=
  match k with
  | .reasoning => { st with thinkingBlocks := m }
  | .tool_invocation => { st with toolBlocks := m }
  | .tool_result => { st with toolBlocks := m }
  | .text => { st with textBlocks := m }

/-- Modelled from the spec: the `open` event handler (the renderer's stream
event handlers are not among the sources). It creates an empty open block at
the index; a duplicate open for an existing index, open or closed, is a
tolerated no-op. -/
def applyOpen (st : StreamingBlocks) (k : BlockKind) (i : Nat) :
    StreamingBlocks :=
  match alGet (mapOf st k) i with
  | some _ => st
  | none => setMap st k (alSet (mapOf st k) i ⟨[], false⟩)

/-- Modelled from the spec: the `append` event handler (the renderer's stream
event handlers are not among the sources). A fragment for an unopened or
already-closed index is dropped; for the text kind an accepted fragment goes
to the single running `textContent` buffer rather than to the per-index
entry; otherwise it extends the block's accumulated content. -/
def applyAppend (st : StreamingBlocks) (k : BlockKind) (i : Nat)
    (f : List Char) : StreamingBlocks :=
  match alGet (mapOf st k) i with
  | none => st
  | some b =>
    if b.closed then st
    else
      match k with
      | .text => { st with textContent := st.textContent ++ f }
      | _ => setMap st k (alSet (mapOf st k) i ⟨b.content ++ f, false⟩)

/-- Modelled from the spec: the `close` event handler (the renderer's stream
event handlers are not among the sources). It marks the block closed,
keeping its content; close for an unopened or already-closed index is
dropped. -/
def applyClose (st : StreamingBlocks) (k : BlockKind) (i : Nat) :
    StreamingBlocks :=
  match alGet (mapOf st k) i with
  | none => st
  | some b =>
    if b.closed then st
    else setMap st k (alSet (mapOf st k) i ⟨b.content, true⟩)

/-- `resetStreamingBlocks` from src/renderer/main.ts lines 262-267 (quoted at
src/unnamed/part_000 lines 65-70): clears the three Maps and empties the
running text buffer, whatever the previous state was. -/
def resetStreamingBlocks (_st : StreamingBlocks) : StreamingBlocks :=
  ⟨[], [], [], []⟩

/-- The state in which a response begins streaming. -/
def emptyStreamingBlocks : StreamingBlocks :=
  ⟨[], [], [], []⟩

/-! ### Helper lemmas -/

lemma jsEndsWith_concat (t : List Char) (a c : Char) :
    jsEndsWith (t ++ [a]) c = (a == c) := by
  simp [jsEndsWith, List.getLast?_concat]

lemma jsEndsWith_decomp {s : List Char} {c : Char} (h : jsEndsWith s c = true) :
    ∃ t, s = t ++ [c] := by
  rcases s.eq_nil_or_concat with rfl | ⟨t, a, rfl⟩
  · simp [jsEndsWith] at h
  · rw [List.concat_eq_append, jsEndsWith_concat] at h
    exact ⟨t, by rw [List.concat_eq_append, eq_of_beq h]⟩

lemma sanitizeArgStr_wrapped (c : Char) (mid : List Char)
    (hc : c = dqc ∨ c = sqc) :
    sanitizeArgStr (c :: (mid ++ [c])) = mid := by
  have hstart : jsStartsWith (c :: (mid ++ [c])) c = true := by
    simp [jsStartsWith]
  have hend : jsEndsWith (c :: (mid ++ [c])) c = true := by
    have : c :: (mid ++ [c]) = (c :: mid) ++ [c] := by simp
    rw [this, jsEndsWith_concat]
    simp
  have hslice : jsSliceOneOff (c :: (mid ++ [c])) = mid := by
    simp [jsSliceOneOff, List.dropLast_concat]
  rcases hc with rfl | rfl
  · simp [sanitizeArgStr, hstart, hend, hslice]
  · simp [sanitizeArgStr, hstart, hend, hslice]

lemma specFullyWrapped_decomp {c : Char} {s : List Char}
    (h : specFullyWrapped c s) : ∃ mid, s = c :: (mid ++ [c]) := by
  obtain ⟨hlen, hs, he⟩ := h
  obtain ⟨t, rfl⟩ := jsEndsWith_decomp he
  cases t with
  | nil => simp at hlen
  | cons b t₂ =>
    have hb : b = c := by
      have := hs
      simp [jsStartsWith] at this
      exact this
    exact ⟨t₂, by simp [hb]⟩

lemma short_wrapped_eq {c : Char} {s : List Char}
    (hs : jsStartsWith s c = true) (hlen : s.length < 2) : s = [c] := by
  cases s with
  | nil => simp [jsStartsWith] at hs
  | cons a t =>
    cases t with
    | nil =>
      simp [jsStartsWith] at hs
      simp [hs]
    | cons b u =>
      exfalso
      simp only [List.length_cons] at hlen
      omega

lemma badgeServerCount_eq (st : RendererMCPState) (serverId : String) :
    badgeServerCount st serverId =
      ((liveTools st serverId).map (fun t => (serverId, t))).length := by
  unfold badgeServerCount liveTools
  cases findServer st serverId with
  | none => rfl
  | some server => by_cases h : server.isConnected <;> simp [h]

lemma mapOf_setMap (st : StreamingBlocks) (k : BlockKind)
    (m : List (Nat × StreamingBlock)) : mapOf (setMap st k m) k = m := by
  cases k <;> rfl

lemma alGet_alSet_self (m : List (Nat × StreamingBlock)) (i : Nat)
    (b : StreamingBlock) : alGet (alSet m i b) i = some b := by
  induction m with
  | nil => simp [alSet, alGet]
  | cons p rest ih =>
    obtain ⟨j, c⟩ := p
    by_cases h : j = i
    · subst h
      simp [alSet, alGet]
    · simp [alSet, alGet, h, ih]

/-! ### Claims -/

/-- C4: for every input that is not a string, `sanitizeArg` returns the
empty string (the `typeof` guard of src/main.ts). -/
theorem c4_nonstring_sanitizes_to_empty (a : JSArg) (h : a.isString = false) :
    sanitizeArg a = [] := by
  cases a with
  | str s => simp [JSArg.isString] at h
  | num n => rfl
  | boolean b => rfl
  | nullV => rfl
  | undefinedV => rfl

/-- Witness for C4: the number zero sanitizes to the empty string. -/
theorem c4_nonstring_sanitizes_to_empty_witness :
    sanitizeArg (JSArg.num 0) = [] :=
  c4_nonstring_sanitizes_to_empty (JSArg.num 0) (by decide)

/-- C3 counterexample: on the one-element list holding the number zero,
mapping the sanitizer of src/main.ts yields a list holding the empty string,
while the sanitizer of src/mcp/client.ts calls `.startsWith` on the number
and raises a TypeError (modelled as `none`), so the two do not agree on
every input value. -/
theorem c3_counterexample :
    sanitizeArgs [JSArg.num 0] ≠ some ([JSArg.num 0].map sanitizeArg) := by
  decide

/-- C3 (amended): the two sanitizers agree at every call site for every list
of string arguments; they diverge only on lists with a non-string element,
where src/mcp/client.ts raises while src/main.ts substitutes the empty
string. -/
theorem c3_sanitizers_agree_on_strings (ss : List (List Char)) :
    sanitizeArgs (ss.map JSArg.str) =
      some (ss.map (fun s => sanitizeArg (JSArg.str s))) := by
  induction ss with
  | nil => rfl
  | cons s rest ih => simp [sanitizeArgs, sanitizeArg, ih]

/-- C5 counterexample: the one-character string holding a lone double quote
is not fully wrapped in a matching quote pair, yet `sanitizeArg` does not
return it unchanged — it returns the empty string. -/
theorem c5_counterexample :
    ¬ specFullyWrapped dqc [dqc] ∧ ¬ specFullyWrapped sqc [dqc] ∧
      sanitizeArgStr [dqc] ≠ [dqc] := by
  decide

/-- C5 (amended): every string fully wrapped in matching double or single
quotes (an opening and a distinct closing quote) has exactly the outer layer
stripped, so a doubly quoted string keeps its inner quotes; every string not
so wrapped is returned unchanged, except the two one-character strings
consisting of a lone quote, which the code treats as a wrapped empty string
because `startsWith` and `endsWith` accept the same character occurrence. -/
theorem c5_quote_stripping (s : List Char) :
    (specFullyWrapped dqc s →
      ∃ mid, s = dqc :: (mid ++ [dqc]) ∧ sanitizeArgStr s = mid) ∧
    (specFullyWrapped sqc s →
      ∃ mid, s = sqc :: (mid ++ [sqc]) ∧ sanitizeArgStr s = mid) ∧
    (¬ specFullyWrapped dqc s → ¬ specFullyWrapped sqc s →
      s ≠ [dqc] → s ≠ [sqc] → sanitizeArgStr s = s) := by
  refine ⟨?_, ?_, ?_⟩
  · intro h
    obtain ⟨mid, rfl⟩ := specFullyWrapped_decomp h
    exact ⟨mid, rfl, sanitizeArgStr_wrapped dqc mid (Or.inl rfl)⟩
  · intro h
    obtain ⟨mid, rfl⟩ := specFullyWrapped_decomp h
    exact ⟨mid, rfl, sanitizeArgStr_wrapped sqc mid (Or.inr rfl)⟩
  · intro hd hs h1 h2
    by_cases hcond : ((jsStartsWith s dqc && jsEndsWith s dqc)
        || (jsStartsWith s sqc && jsEndsWith s sqc)) = true
    · exfalso
      rcases Bool.or_eq_true_iff.1 hcond with hdq | hsq
      · obtain ⟨ha, hb⟩ := Bool.and_eq_true_iff.1 hdq
        by_cases hlen : 2 ≤ s.length
        · exact hd ⟨hlen, ha, hb⟩
        · exact h1 (short_wrapped_eq ha (by omega))
      · obtain ⟨ha, hb⟩ := Bool.and_eq_true_iff.1 hsq
        by_cases hlen : 2 ≤ s.length
        · exact hs ⟨hlen, ha, hb⟩
        · exact h2 (short_wrapped_eq ha (by omega))
    · unfold sanitizeArgStr
      rw [if_neg hcond]

/-- Witness for C5: stripping a double-quoted one-character payload. -/
theorem c5_quote_stripping_witness :
    ∃ mid, [dqc, 'a', dqc] = dqc :: (mid ++ [dqc]) ∧
      sanitizeArgStr [dqc, 'a', dqc] = mid :=
  (c5_quote_stripping [dqc, 'a', dqc]).1 (by decide)

/-- C10: a lone double-quote character and a lone single-quote character
each sanitize to the empty string — the wrapped check accepts the same
character as opening and closing quote, and `slice(1, -1)` of a
one-character string is empty. -/
theorem c10_lone_quote_sanitizes_to_empty :
    sanitizeArg (JSArg.str [dqc]) = [] ∧
      sanitizeArg (JSArg.str [sqc]) = [] := by
  decide

/-- C1 counterexample: capability write of server files is selected
individually while discovered, the server then rediscovers with only read,
and `getSelectedMCPTools` still returns the stale pair, which the claim says
must be excluded. -/
theorem c1_counterexample :
    ("files", "write") ∈ getSelectedMCPTools
        (setServerTools
          (selectCapability ⟨[⟨"files", true, ["read", "write"]⟩], [], []⟩
            "files" "write")
          "files" ["read"]) ∧
      "write" ∉ liveTools
        (setServerTools
          (selectCapability ⟨[⟨"files", true, ["read", "write"]⟩], [], []⟩
            "files" "write")
          "files" ["read"]) "files" := by
  decide

/-- C1 (amended): every pair returned by `getSelectedMCPTools` either names
a capability in the server's current live list (every pair produced by a
whole-server selection does) or is an individually selected key — individual
selections are returned without being filtered against the live list, so a
stale individual selection is not excluded. -/
theorem c1_resolve_live_or_individual (st : RendererMCPState)
    (serverId name : String)
    (h : (serverId, name) ∈ getSelectedMCPTools st) :
    name ∈ liveTools st serverId ∨ (serverId, name) ∈ st.selectedMCPTools := by
  unfold getSelectedMCPTools at h
  rcases List.mem_append.1 h with h1 | h2
  · left
    obtain ⟨a, _, hmem⟩ := List.mem_flatMap.1 h1
    obtain ⟨t, ht, heq⟩ := List.mem_map.1 hmem
    obtain ⟨rfl, rfl⟩ := Prod.ext_iff.1 heq
    exact ht
  · right
    exact (List.mem_filter.1 h2).1

/-- Witness for C1 (amended): a stale individually selected pair is returned
and falls in the individually-selected disjunct. -/
theorem c1_resolve_live_or_individual_witness :
    "write" ∈ liveTools
        ⟨[⟨"files", true, ["read"]⟩], [("files", "write")], []⟩ "files" ∨
      ("files", "write") ∈
        (⟨[⟨"files", true, ["read"]⟩], [("files", "write")], []⟩ :
          RendererMCPState).selectedMCPTools :=
  c1_resolve_live_or_individual
    ⟨[⟨"files", true, ["read"]⟩], [("files", "write")], []⟩
    "files" "write" (by decide)

/-- C2 counterexample: server files is whole-selected while it exposes only
read; its discovery list later gains write with no re-selection, and the new
capability does appear in a subsequent `getSelectedMCPTools` — the stored
selection is the bare server id, not a snapshot of names. -/
theorem c2_counterexample :
    ("files", "write") ∉ getSelectedMCPTools
        (selectServer ⟨[⟨"files", true, ["read"]⟩], [], []⟩ "files") ∧
      ("files", "write") ∈ getSelectedMCPTools
        (setServerTools
          (selectServer ⟨[⟨"files", true, ["read"]⟩], [], []⟩ "files")
          "files" ["read", "write"]) := by
  decide

/-- C2 (amended): whole-server selection is live, not a snapshot — for a
whole-selected server, `getSelectedMCPTools` returns exactly the pairs of
the server's capability list as currently discovered, so a capability added
after `selectServer` appears in every subsequent resolution. -/
theorem c2_whole_server_selection_is_live (st : RendererMCPState)
    (serverId name : String)
    (h : serverId ∈ st.selectedMCPServers) :
    ((serverId, name) ∈ getSelectedMCPTools st ↔
      name ∈ liveTools st serverId) := by
  unfold getSelectedMCPTools
  constructor
  · intro hm
    rcases List.mem_append.1 hm with h1 | h2
    · obtain ⟨a, _, hmem⟩ := List.mem_flatMap.1 h1
      obtain ⟨t, ht, heq⟩ := List.mem_map.1 hmem
      obtain ⟨rfl, rfl⟩ := Prod.ext_iff.1 heq
      exact ht
    · exfalso
      have hk := (List.mem_filter.1 h2).2
      simp [h] at hk
  · intro hl
    refine List.mem_append.2 (Or.inl ?_)
    exact List.mem_flatMap.2 ⟨serverId, h, List.mem_map.2 ⟨name, hl, rfl⟩⟩

/-- Witness for C2 (amended): with server files whole-selected, the pair for
read is resolved exactly when read is currently live. -/
theorem c2_whole_server_selection_is_live_witness :
    (("files", "read") ∈ getSelectedMCPTools
        ⟨[⟨"files", true, ["read"]⟩], [], ["files"]⟩ ↔
      "read" ∈ liveTools
        ⟨[⟨"files", true, ["read"]⟩], [], ["files"]⟩ "files") :=
  c2_whole_server_selection_is_live
    ⟨[⟨"files", true, ["read"]⟩], [], ["files"]⟩ "files" "read" (by decide)

/-- C6: in every selection and connection state, the count computed by
`updateToolsBadge` equals the number of pairs returned by
`getSelectedMCPTools`: the badge's manual recomputation does not diverge
from the resolve derivation. -/
theorem c6_badge_count_matches_resolve (st : RendererMCPState) :
    updateToolsBadgeCount st = (getSelectedMCPTools st).length := by
  unfold updateToolsBadgeCount getSelectedMCPTools
  simp only [List.length_append, List.length_flatMap]
  have hmap : st.selectedMCPServers.map (badgeServerCount st) =
      st.selectedMCPServers.map
        (List.length ∘ fun serverId =>
          (liveTools st serverId).map (fun t => (serverId, t))) := by
    refine List.map_congr_left ?_
    intro a _
    exact badgeServerCount_eq st a
  rw [hmap]

/-- C7: from any state in which index i is unopened for kind k, the sequence
open, append f1, append f2, close leaves the block at i closed with content
f1 then f2 in emission order for every non-text kind; for the text kind the
fragments accumulate in order on the single running buffer, and the two
fragments Hello and space-world produce exactly the string Hello world. -/
theorem c7_fragments_accumulate_in_order :
    (∀ (st : StreamingBlocks) (k : BlockKind) (i : Nat) (f1 f2 : List Char),
      k ≠ BlockKind.text →
      alGet (mapOf st k) i = none →
      alGet (mapOf (applyClose (applyAppend (applyAppend
          (applyOpen st k i) k i f1) k i f2) k i) k) i
        = some ⟨f1 ++ f2, true⟩) ∧
    (∀ (st : StreamingBlocks) (i : Nat) (f1 f2 : List Char),
      alGet st.textBlocks i = none →
      (applyClose (applyAppend (applyAppend
          (applyOpen st BlockKind.text i) BlockKind.text i f1)
          BlockKind.text i f2) BlockKind.text i).textContent
        = st.textContent ++ f1 ++ f2) ∧
    (applyClose (applyAppend (applyAppend
        (applyOpen emptyStreamingBlocks BlockKind.text 0)
        BlockKind.text 0 "Hello".toList)
        BlockKind.text 0 " world".toList) BlockKind.text 0).textContent
      = "Hello world".toList := by
  refine ⟨?_, ?_, by decide⟩
  · intro st k i f1 f2 hk h0
    cases k with
    | text => exact absurd rfl hk
    | reasoning =>
      simp only [mapOf] at h0
      simp [applyOpen, applyAppend, applyClose, mapOf, setMap, h0,
        alGet_alSet_self]
    | tool_invocation =>
      simp only [mapOf] at h0
      simp [applyOpen, applyAppend, applyClose, mapOf, setMap, h0,
        alGet_alSet_self]
    | tool_result =>
      simp only [mapOf] at h0
      simp [applyOpen, applyAppend, applyClose, mapOf, setMap, h0,
        alGet_alSet_self]
  · intro st i f1 f2 h0
    simp [applyOpen, applyAppend, applyClose, mapOf, setMap, h0,
      alGet_alSet_self]

/-- Witness for C7: a reasoning block assembled from two concrete fragments
ends closed with the concatenated content. -/
theorem c7_fragments_accumulate_in_order_witness :
    alGet (mapOf (applyClose (applyAppend (applyAppend
        (applyOpen emptyStreamingBlocks BlockKind.reasoning 0)
        BlockKind.reasoning 0 "Hel".toList)
        BlockKind.reasoning 0 "lo".toList) BlockKind.reasoning 0)
        BlockKind.reasoning) 0
      = some ⟨"Hel".toList ++ "lo".toList, true⟩ :=
  c7_fragments_accumulate_in_order.1 emptyStreamingBlocks BlockKind.reasoning 0
    "Hel".toList "lo".toList (by decide) (by decide)

/-- C8: an append event for an index that was never opened, or whose block
is already closed, returns the state entirely unchanged — closed blocks are
immutable — and the handler is a total function, so no error is raised. -/
theorem c8_dropped_append_is_noop (st : StreamingBlocks) (k : BlockKind)
    (i : Nat) (f : List Char)
    (h : alGet (mapOf st k) i = none ∨
      ∃ b, alGet (mapOf st k) i = some b ∧ b.closed = true) :
    applyAppend st k i f = st := by
  rcases h with h | ⟨b, hb, hc⟩
  · simp [applyAppend, h]
  · simp [applyAppend, hb, hc]

/-- Witness for C8: appending to a closed reasoning block at index zero
leaves the state unchanged. -/
theorem c8_dropped_append_is_noop_witness :
    applyAppend ⟨[(0, ⟨"x".toList, true⟩)], [], [], []⟩
        BlockKind.reasoning 0 "y".toList
      = ⟨[(0, ⟨"x".toList, true⟩)], [], [], []⟩ :=
  c8_dropped_append_is_noop ⟨[(0, ⟨"x".toList, true⟩)], [], [], []⟩
    BlockKind.reasoning 0 "y".toList
    (Or.inr ⟨⟨"x".toList, true⟩, by decide, by decide⟩)

/-- C9: `resetStreamingBlocks` discards all block state — afterwards the
three kind-partitioned Maps are empty and the running text buffer is the
empty string — and it is idempotent: applying it twice from any state gives
the same state as applying it once. -/
theorem c9_reset_discards_all_and_idempotent :
    (∀ st : StreamingBlocks,
      (resetStreamingBlocks st).thinkingBlocks = [] ∧
      (resetStreamingBlocks st).toolBlocks = [] ∧
      (resetStreamingBlocks st).textBlocks = [] ∧
      (resetStreamingBlocks st).textContent = []) ∧
    ∀ st : StreamingBlocks,
      resetStreamingBlocks (resetStreamingBlocks st) = resetStreamingBlocks st :=
  ⟨fun _ => ⟨rfl, rfl, rfl, rfl⟩, fun _ => rfl⟩

end OpenClaude
